import Mathlib

/-!
Verification of the bbb-dashboard metrics/model computation pipeline.

The Python source (src/app) is shallowly embedded here:
tabular data becomes lists of records, numeric cells that may hold NaN
(pandas missing values) become `Option ℚ`, and pandas column operations
become list functions.  Each definition is translated from the function
of the source it names in its doc comment.
-/

namespace BBB

/-- A cell of the raw `Seed` column: `none` models a missing value (NaN),
`some s` models the cell's textual content. -/
abbrev SeedCell := Option String

/-- One row of the canonicalized odds table (`canonicalize_odds` output):
`team`, `Odds Source`, `Seed`, `Win WC`, `Win Div`, `Win Conf`.
Probability cells are `Option ℚ`: `none` models a missing or non-numeric
cell (NaN after numeric coercion). -/
structure OddsRow where
  team : String
  odds_source : Option String
  seed : SeedCell
  win_wc : Option ℚ
  win_div : Option ℚ
  win_conf : Option ℚ
deriving DecidableEq

/-- One row of the canonicalized points table (`canonicalize_pts` output). -/
structure PtsRow where
  team : String
  position : String
  reg_ppg : ℚ
deriving DecidableEq

/-- Whitespace stripping of a cell's text (`.str.strip()`), as a character
list: drop whitespace from both ends. -/
def trimList (l : List Char) : List Char :=
  (((l.dropWhile (fun c => c.isWhitespace)).reverse.dropWhile
    (fun c => c.isWhitespace))).reverse

/-- Numeric value of a list of decimal digit characters, most significant
first (how `pd.to_numeric` reads the digit run produced by the extraction). -/
def natOfDigits (l : List Char) : Nat :=
  l.foldl (fun n c => 10 * n + (c.toNat - ('0').toNat)) 0

/-- First maximal run of decimal digits of a character list. -/
def firstDigitRun (l : List Char) : List Char :=
  (l.dropWhile (fun c => !c.isDigit)).takeWhile (fun c => c.isDigit)

/-- `metrics.add_expected_games` seed parsing (metrics.py lines 20-28):
`astype(str).str.strip().str.extract((\d+))` followed by `pd.to_numeric`:
the first embedded run of digits of the trimmed cell, as a number;
`none` when the cell is missing or holds no digit. -/
def extractFirstNat (s : String) : Option Nat :=
  match firstDigitRun (trimList s.data) with
  | [] => none
  | c :: cs => some (natOfDigits (c :: cs))

/-- Bye flag of the unit (expected-games) pipeline, metrics.py lines 20-28:
first embedded integer of the seed cell equals 1; missing or unparsable
seed gives `false`. -/
def is_bye_metrics (seed : SeedCell) : Bool :=
  (seed.bind extractFirstNat) == some 1

/-- `pd.to_numeric(x, errors="coerce")` on a seed cell, restricted to the
non-negative integer literals that occur as seeds: the whole trimmed cell
must be a digit run, otherwise the coercion yields NaN (`none`). -/
def parseNatFull (s : String) : Option Nat :=
  let t := trimList s.data
  if t ≠ [] ∧ t.all (fun c => c.isDigit) then some (natOfDigits t) else none

/-- Bye flag of the playoff-distribution pipeline in main.py lines 138-139:
`pd.to_numeric(team.get("Seed"), errors="coerce").eq(1)` — the seed cell
must parse as a number in full; noisy cells coerce to NaN and give `false`. -/
def is_bye_dist (seed : SeedCell) : Bool :=
  (seed.bind parseNatFull) == some 1

/-- Bye flag of model.py lines 80-90: the seed column is first coerced
numerically (line 80), then stringified and the first digit run extracted
(lines 83-90).  For a numeric seed the extraction recovers the number
itself; a noisy cell already became NaN at line 80. -/
def is_bye_model (seed : SeedCell) : Bool :=
  (((seed.bind parseNatFull).map (fun n => toString n)).bind extractFirstNat) == some 1

/-- NaN-propagating addition of numeric cells (pandas column arithmetic). -/
def nadd : Option ℚ → Option ℚ → Option ℚ
  | some a, some b => some (a + b)
  | _, _ => none

/-- NaN-propagating multiplication of numeric cells. -/
def nmul : Option ℚ → Option ℚ → Option ℚ
  | some a, some b => some (a * b)
  | _, _ => none

/-- metrics.py line 29: `np.where(is_bye, 0.0, out["Win WC"])`. -/
def win_wc_played (r : OddsRow) : Option ℚ :=
  if is_bye_metrics r.seed then some 0 else r.win_wc

/-- `metrics.add_expected_games`, the derived cell of one row
(metrics.py line 34): `1 + win_wc_played + Win Div + Win Conf`,
with pandas NaN propagation.  The `Seed` column is always present in
this data model, as the spec's OddsRecord requires. -/
def add_expected_games_row (r : OddsRow) : Option ℚ :=
  nadd (nadd (nadd (some 1) (win_wc_played r)) r.win_div) r.win_conf

/-- `metrics.add_expected_points` on one joined row (metrics.py line 49):
`reg_ppg * expected_games`. -/
def add_expected_points_row (reg_ppg : ℚ) (r : OddsRow) : Option ℚ :=
  nmul (some reg_ppg) (add_expected_games_row r)

/-- `pd.to_numeric(..., errors="coerce").fillna(0.0)` on a probability cell
(main.py lines 135-136, model.py lines 77-78). -/
def coerceProb (c : Option ℚ) : ℚ := c.getD 0

/-- Round half to even at integer precision (numpy rounding). -/
def roundHalfEven (q : ℚ) : ℤ :=
  let f := q.floor
  let r := q - (f : ℚ)
  if r < 1/2 then f else if 1/2 < r then f + 1 else if f % 2 = 0 then f else f + 1

/-- `.round(2)` of numpy/pandas on an exact rational. -/
def round2 (q : ℚ) : ℚ := (roundHalfEven (100 * q) : ℚ) / 100

/-- One row of the displayed team distribution table. -/
structure TeamDistRow where
  team : String
  expected_games : ℚ
  play_1 : ℚ
  play_2 : ℚ
  play_3 : ℚ
  play_4 : ℚ
  play_3_plus : ℚ
deriving DecidableEq

/-- The playoff-distribution computation of `run_app` (main.py lines
133-159), one team row before percentage formatting: win columns coerced
with missing → 0.0, bye flag from numeric seed coercion, `Expected Games`
computed without any bye branch (line 141), and the five play masses by
`np.where(is_bye, bye_value, nonbye_value)`. -/
def distRow (o : OddsRow) : TeamDistRow :=
  let wc := coerceProb o.win_wc
  let dv := coerceProb o.win_div
  let cf := coerceProb o.win_conf
  let bye := is_bye_dist o.seed
  { team := o.team
  , expected_games := round2 (1 + wc + dv + cf)
  , play_1 := if bye then 1 - dv else 1 - wc
  , play_2 := if bye then dv - cf else wc - dv
  , play_3 := if bye then cf else dv - cf
  , play_4 := if bye then 0 else cf
  , play_3_plus := if bye then cf else dv }

/-- The `Expected Games` cell of the distribution table as `build_model`
computes it (model.py lines 92-96): the same coerced win columns, but
branched on the bye flag of model.py lines 80-90. -/
def model_expected_games_display (o : OddsRow) : ℚ :=
  let wc := coerceProb o.win_wc
  let dv := coerceProb o.win_div
  let cf := coerceProb o.win_conf
  round2 (if is_bye_model o.seed then 1 + dv + cf else 1 + wc + dv + cf)

/-- The digits of an all-digit list are their own first digit run. -/
theorem takeWhile_isDigit_of_all (l : List Char)
    (h : l.all (fun c => c.isDigit) = true) :
    l.takeWhile (fun c => c.isDigit) = l := by
  induction l with
  | nil => rfl
  | cons c cs ih =>
    simp only [List.all_cons, Bool.and_eq_true] at h
    simp [List.takeWhile_cons, h.1, ih h.2]

/-- On a trimmed all-digit seed cell, the first-integer extraction of
metrics.py recovers the same number as the full numeric parse of main.py. -/
theorem extractFirstNat_eq_parseNatFull_of_digits (s : String)
    (h1 : trimList s.data ≠ [])
    (h2 : (trimList s.data).all (fun c => c.isDigit) = true) :
    extractFirstNat s = parseNatFull s := by
  unfold extractFirstNat parseNatFull firstDigitRun
  rcases ht : trimList s.data with _ | ⟨c, cs⟩
  · exact absurd ht h1
  · rw [ht] at h2
    have hall := h2
    simp only [List.all_cons, Bool.and_eq_true] at h2
    have hdrop : (c :: cs).dropWhile (fun c => !c.isDigit) = c :: cs := by
      simp [List.dropWhile_cons, h2.1]
    rw [hdrop, takeWhile_isDigit_of_all (c :: cs) hall]
    simp [h1, ht, hall]

end BBB

open BBB

/-- C1: for every row, `add_expected_games` yields `1 + win_wc + win_div +
win_conf` for a non-bye team and `1 + win_div + win_conf` for a bye team,
with `win_wc` excluded from the bye sum whatever value (even a missing
one) the `Win WC` cell stores. -/
theorem expected_games_bye_branch (t : String) (src : Option String)
    (seed : SeedCell) (wc : Option ℚ) (dv cf : ℚ) :
    add_expected_games_row ⟨t, src, seed, wc, some dv, some cf⟩ =
      (if is_bye_metrics seed then some (1 + dv + cf)
       else wc.map (fun w => 1 + w + dv + cf)) := by
  unfold add_expected_games_row win_wc_played
  by_cases h : is_bye_metrics seed
  · simp only [h, if_true]
    simp [nadd]
  · simp only [h]
    cases wc <;> simp [nadd]

unseal Rat.add Rat.mul Rat.inv Rat.sub in
/-- C2: code bug witness.  For a bye team (seed 1) with `win_wc = 1`,
`win_div = 0.6`, `win_conf = 0.3`, the distribution table that `run_app`
displays (main.py line 141) shows expected games `2.90`, while the §4.2
expected-games computation (metrics.py) and `build_model`'s distribution
table (model.py lines 92-96) both give `1.90`: the displayed figure does
not exclude `win_wc` for bye teams. -/
theorem team_table_expected_games_divergence :
    (distRow ⟨"KC", some "book", some "1", some 1, some (3/5),
        some (3/10)⟩).expected_games = 29/10 ∧
    add_expected_games_row ⟨"KC", some "book", some "1", some 1, some (3/5),
        some (3/10)⟩ = some (19/10) ∧
    model_expected_games_display ⟨"KC", some "book", some "1", some 1,
        some (3/5), some (3/10)⟩ = 19/10 ∧
    (29/10 : ℚ) ≠ 19/10 := by
  decide

/-- C3: for every team row of the playoff-distribution computation, in the
bye branch `play_1 + play_2 + play_3 = 1`, `play_4 = 0` and
`play_3_plus = win_conf`; in the non-bye branch
`play_1 + play_2 + play_3 + play_4 = 1` and `play_3_plus = win_div`
(win columns after the coercion of main.py lines 135-136). -/
theorem play_distribution_sums (o : OddsRow) :
    if is_bye_dist o.seed then
      (distRow o).play_1 + (distRow o).play_2 + (distRow o).play_3 = 1 ∧
      (distRow o).play_4 = 0 ∧
      (distRow o).play_3_plus = coerceProb o.win_conf
    else
      (distRow o).play_1 + (distRow o).play_2 + (distRow o).play_3 +
        (distRow o).play_4 = 1 ∧
      (distRow o).play_3_plus = coerceProb o.win_div := by
  cases h : is_bye_dist o.seed <;>
    simp only [distRow, h, Bool.false_eq_true, if_false, if_true] <;>
    refine ⟨by ring, ?_⟩ <;> simp

unseal Rat.add Rat.mul Rat.inv Rat.sub in
/-- C4: counterexample.  For the noisy seed cell `"1st"` the expected-games
computation (metrics.py extraction) flags a bye while the displayed
playoff-distribution computation (main.py numeric coercion) does not:
the two pipelines are not governed by the same derivation.  Downstream,
expected games uses the bye formula while the same row's distribution uses
the non-bye branch and assigns `play_4 = 0.3 ≠ 0`. -/
theorem bye_flag_derivations_differ :
    is_bye_metrics (some "1st") = true ∧
    is_bye_dist (some "1st") = false ∧
    add_expected_games_row ⟨"BUF", some "book", some "1st", some (9/10),
        some (3/5), some (3/10)⟩ = some (19/10) ∧
    (distRow ⟨"BUF", some "book", some "1st", some (9/10), some (3/5),
        some (3/10)⟩).play_4 = 3/10 := by
  decide

/-- C4 (amended): the expected-games computation derives the bye flag by
extracting the first embedded integer of the seed cell and comparing it to
1, with missing or digit-free cells treated as non-bye; the
playoff-distribution computation instead coerces the whole cell
numerically, so the two derivations agree on missing cells and on cells
that are plain integer numerals, but not on noisy cells whose integer only
the extraction recovers. -/
theorem bye_flag_agreement_on_numeric_seeds (s : String)
    (h1 : trimList s.data ≠ [])
    (h2 : (trimList s.data).all (fun c => c.isDigit) = true) :
    is_bye_metrics (some s) = is_bye_dist (some s) ∧
    is_bye_metrics none = false ∧
    is_bye_dist none = false := by
  refine ⟨?_, rfl, rfl⟩
  unfold is_bye_metrics is_bye_dist
  simp [Option.bind, extractFirstNat_eq_parseNatFull_of_digits s h1 h2]

/-- C4 witness: the agreement at the concrete numeral seed `"1"`. -/
theorem bye_flag_agreement_on_numeric_seeds_witness :
    is_bye_metrics (some "1") = is_bye_dist (some "1") :=
  (bye_flag_agreement_on_numeric_seeds "1" (by decide) (by decide)).1

unseal Rat.add Rat.mul Rat.inv Rat.sub in
/-- C5: counterexample.  A row whose `Win Div` cell is missing (NaN after
coercion) flows through `add_expected_games` without any defaulting, so
its `expected_games` is NaN (`none`), not the value `1 + win_wc + 0 +
win_conf` that a 0.0 default would give. -/
theorem missing_win_prob_not_defaulted :
    add_expected_games_row ⟨"KC", some "book", some "3", some (1/2), none,
        some (1/10)⟩ = none ∧
    (none : Option ℚ) ≠ some (1 + 1/2 + 0 + 1/10) := by
  decide

/-- C5 (amended): only the playoff-distribution pipeline defaults missing
or non-numeric win probabilities to 0.0 (main.py lines 135-136, model.py
lines 77-78); the unit pipeline's `add_expected_games` and
`add_expected_points` use the stored cells directly, so a missing win
probability makes the row's `expected_games` and `expected_points` NaN. -/
theorem missing_win_prob_handling :
    coerceProb none = 0 ∧
    (∀ q : ℚ, coerceProb (some q) = q) ∧
    (∀ (t : String) (src : Option String) (seed : SeedCell)
        (wc cf : Option ℚ),
      add_expected_games_row ⟨t, src, seed, wc, none, cf⟩ = none) ∧
    (∀ (rp : ℚ) (t : String) (src : Option String) (seed : SeedCell)
        (wc cf : Option ℚ),
      add_expected_points_row rp ⟨t, src, seed, wc, none, cf⟩ = none) := by
  refine ⟨rfl, fun q => rfl, ?_, ?_⟩
  · intro t src seed wc cf
    unfold add_expected_games_row
    cases h : nadd (some 1) (win_wc_played ⟨t, src, seed, wc, none, cf⟩) <;>
      simp [nadd]
  · intro rp t src seed wc cf
    unfold add_expected_points_row add_expected_games_row
    cases h : nadd (some 1) (win_wc_played ⟨t, src, seed, wc, none, cf⟩) <;>
      simp [nadd, nmul]

namespace BBB

/-- Code-point lexicographic comparison of character lists: how Python
compares strings when sorting. -/
def lexLe : List Char → List Char → Bool
  | [], _ => true
  | _ :: _, [] => false
  | a :: as, b :: bs =>
    if a.toNat < b.toNat then true
    else if b.toNat < a.toNat then false
    else lexLe as bs

theorem lexLe_refl (a : List Char) : lexLe a a = true := by
  induction a with
  | nil => rfl
  | cons c cs ih => simp [lexLe, ih]

theorem lexLe_total (a : List Char) : ∀ b, lexLe a b = true ∨ lexLe b a = true := by
  induction a with
  | nil => intro b; left; rfl
  | cons c cs ih =>
    intro b
    cases b with
    | nil => right; rfl
    | cons d ds =>
      by_cases h1 : c.toNat < d.toNat
      · left; simp [lexLe, h1]
      · by_cases h2 : d.toNat < c.toNat
        · right; simp [lexLe, h2]
        · rcases ih ds with h | h
          · left; simp [lexLe, h1, h2, h]
          · right; simp [lexLe, h1, h2, h]

theorem lexLe_trans (a : List Char) :
    ∀ b c, lexLe a b = true → lexLe b c = true → lexLe a c = true := by
  induction a with
  | nil => intro b c _ _; rfl
  | cons x xs ih =>
    intro b c h1 h2
    cases b with
    | nil => simp [lexLe] at h1
    | cons y ys =>
      cases c with
      | nil => simp [lexLe] at h2
      | cons z zs =>
        simp only [lexLe] at h1 h2 ⊢
        split_ifs at h1 h2 ⊢ <;>
          first
          | rfl
          | omega
          | exact ih ys zs h1 h2

/-- Python string comparison, on the strings' character data. -/
def strLeB (a b : String) : Bool := lexLe a.data b.data

/-- The order `sorted()` uses on source names. -/
def srcLe (a b : String) : Prop := strLeB a b = true

instance : DecidableRel srcLe := fun a b =>
  inferInstanceAs (Decidable (strLeB a b = true))

instance : IsTrans String srcLe :=
  ⟨fun a b c h1 h2 => lexLe_trans a.data b.data c.data h1 h2⟩

instance : IsTotal String srcLe :=
  ⟨fun a b => lexLe_total a.data b.data⟩

/-- The descending comparison pandas ranking sorts a value column by. -/
def geQ (a b : ℚ) : Prop := b ≤ a

instance : DecidableRel geQ := fun a b => inferInstanceAs (Decidable (b ≤ a))

instance : IsTrans ℚ geQ := ⟨fun _ _ _ h1 h2 => le_trans h2 h1⟩

instance : IsTotal ℚ geQ := ⟨fun a b => le_total b a⟩

/-- The value column sorted descending (stably), as pandas ranking does. -/
def sortDescQ (xs : List ℚ) : List ℚ := List.insertionSort geQ xs

/-- `Series.rank(method="min", ascending=False).astype(int)` (model.py
lines 63-67, main.py lines 108-112): a value's rank is one plus the
position of its first occurrence in the descending sort — the smallest
ordinal position its tie group occupies. -/
def rankMinDesc (xs : List ℚ) : List ℕ :=
  xs.map (fun v => 1 + List.indexOf v (sortDescQ xs))

/-- In a descending-sorted list, the index of the first occurrence of a
member equals the number of strictly larger entries. -/
theorem indexOf_sorted_countP (l : List ℚ) (hs : List.Sorted geQ l)
    (v : ℚ) (hv : v ∈ l) :
    List.indexOf v l = l.countP (fun u => decide (v < u)) := by
  induction l with
  | nil => simp at hv
  | cons a t ih =>
    rw [List.sorted_cons] at hs
    by_cases hav : a = v
    · subst hav
      have h0 : t.countP (fun u => decide (a < u)) = 0 := by
        rw [List.countP_eq_zero]
        intro u hu
        simp [not_lt.2 (hs.1 u hu)]
      rw [List.indexOf_cons_self, List.countP_cons]
      simp [h0]
    · have hvt : v ∈ t := by
        rcases List.mem_cons.1 hv with h | h
        · exact absurd h.symm hav
        · exact h
      have hva : v < a := lt_of_le_of_ne (hs.1 v hvt) (fun he => hav he.symm)
      rw [List.indexOf_cons, List.countP_cons, ih hs.2 hvt]
      have : (a == v) = false := by simp [hav]
      simp [this, hva]

/-- Positionwise description of the min-method descending rank: each
value's rank is one plus the count of strictly greater values. -/
theorem rank_getElem_eq (xs : List ℚ) (i : ℕ) :
    (rankMinDesc xs)[i]? =
      (xs[i]?).map (fun v => 1 + xs.countP (fun u => decide (v < u))) := by
  rw [rankMinDesc, List.getElem?_map]
  cases h : xs[i]? with
  | none => rfl
  | some v =>
    have hv : v ∈ xs := List.getElem?_mem h
    have hperm := List.perm_insertionSort geQ xs
    have hs := List.sorted_insertionSort geQ xs
    simp only [Option.map_some']
    rw [sortDescQ, indexOf_sorted_countP _ hs v (hperm.mem_iff.2 hv),
      hperm.countP_eq]

end BBB

/-- C6: the rank function implements competition ranking: each value's
rank is 1 plus the count of strictly better values, equal values share the
same (best) rank, and ranking `[10, 10, 8]` descending yields `[1, 1, 3]`,
not `[1, 1, 2]`. -/
theorem rank_competition_ranking :
    (∀ (xs : List ℚ) (i : ℕ),
      (rankMinDesc xs)[i]? =
        (xs[i]?).map (fun v => 1 + xs.countP (fun u => decide (v < u)))) ∧
    (∀ (xs : List ℚ) (i j : ℕ) (v : ℚ),
      xs[i]? = some v → xs[j]? = some v →
      (rankMinDesc xs)[i]? = (rankMinDesc xs)[j]?) ∧
    rankMinDesc [10, 10, 8] = [1, 1, 3] := by
  refine ⟨rank_getElem_eq, ?_, by decide⟩
  intro xs i j v hi hj
  rw [rank_getElem_eq, rank_getElem_eq, hi, hj]

/-- C6 witness: at `[10, 10, 8]` the two tied positions share rank 1, the
rank of the third equals one plus the two strictly better rows. -/
theorem rank_competition_ranking_witness :
    (rankMinDesc [10, 10, 8])[0]? = (rankMinDesc [10, 10, 8])[1]? :=
  rank_competition_ranking.2.1 [10, 10, 8] 0 1 10 (by decide) (by decide)

namespace BBB

/-- A row of the full ranked table before global ranking: the fields the
overall ranking and the filters touch (team, position, and the selected
baseline-deviation column `value_vs_position_*_expected_points`). -/
structure UnitValueRow where
  team : String
  position : String
  value : ℚ
deriving DecidableEq

/-- A ranked-table row after `overall_rank` is attached. -/
structure RankedRow where
  team : String
  position : String
  value : ℚ
  overall_rank : ℕ
deriving DecidableEq

/-- main.py lines 209-213: `overall_rank` over the full table by
`base[value_col].rank(method="min", ascending=False)`. -/
def assignOverallRank (rows : List UnitValueRow) : List RankedRow :=
  rows.map (fun r =>
    ⟨r.team, r.position, r.value,
      1 + List.indexOf r.value (sortDescQ (rows.map (fun s => s.value)))⟩)

/-- The lexicographic key of main.py line 216,
`sort_values(["overall_rank", "position", "team"])`. -/
def rowLe (a b : RankedRow) : Prop :=
  (if a.overall_rank = b.overall_rank then
    (if a.position = b.position then strLeB a.team b.team = true
     else strLeB a.position b.position = true)
   else a.overall_rank < b.overall_rank)

instance : DecidableRel rowLe := fun a b => by
  unfold rowLe; infer_instance

/-- The global sort of main.py line 216 (filters are applied after it). -/
def sortTable (l : List RankedRow) : List RankedRow :=
  List.insertionSort rowLe l

/-- main.py lines 219-225: the team multiselect and position multiselect,
each applied only when non-empty, each only removing rows. -/
def applyFilters (tf pf : List String) (l : List RankedRow) : List RankedRow :=
  let l1 := if tf.isEmpty then l else l.filter (fun r => tf.contains r.team)
  if pf.isEmpty then l1 else l1.filter (fun r => pf.contains r.position)

theorem mem_of_applyFilters (tf pf : List String) (l : List RankedRow)
    (r : RankedRow) (h : r ∈ applyFilters tf pf l) : r ∈ l := by
  unfold applyFilters at h
  by_cases hp : pf.isEmpty <;> by_cases ht : tf.isEmpty <;>
    simp only [hp, ht, if_true, if_false] at h <;>
    first
    | exact h
    | exact (List.mem_filter.1 h).1
    | exact (List.mem_filter.1 (List.mem_filter.1 h).1).1

end BBB

/-- C7: every row that survives the team/position filters carries exactly
the `overall_rank` it was assigned over the full, unfiltered table: it is
one of the rows of the full ranked table, and its rank is 1 plus the
number of rows of the full table with a strictly better value — filters
remove rows, they never renumber them. -/
theorem filter_preserves_overall_rank (rows : List UnitValueRow)
    (tf pf : List String) (r : RankedRow)
    (hr : r ∈ applyFilters tf pf (sortTable (assignOverallRank rows))) :
    r ∈ assignOverallRank rows ∧
    r.overall_rank =
      1 + (rows.map (fun s => s.value)).countP
        (fun u => decide (r.value < u)) := by
  have h1 : r ∈ sortTable (assignOverallRank rows) :=
    mem_of_applyFilters tf pf _ r hr
  have h2 : r ∈ assignOverallRank rows :=
    ((List.perm_insertionSort rowLe _).mem_iff).1 h1
  refine ⟨h2, ?_⟩
  obtain ⟨s, hs, heq⟩ := List.mem_map.1 h2
  have hvmem : s.value ∈ rows.map (fun t => t.value) :=
    List.mem_map.2 ⟨s, hs, rfl⟩
  have hperm := List.perm_insertionSort geQ (rows.map (fun t => t.value))
  have hsorted := List.sorted_insertionSort geQ (rows.map (fun t => t.value))
  subst heq
  show 1 + List.indexOf s.value (sortDescQ (rows.map (fun t => t.value))) = _
  rw [sortDescQ,
    indexOf_sorted_countP _ hsorted s.value (hperm.mem_iff.2 hvmem),
    hperm.countP_eq]

unseal Rat.add Rat.mul Rat.inv Rat.sub in
/-- C7 witness: with three units and a team filter, the surviving row
keeps rank 2 computed over all three rows. -/
theorem filter_preserves_overall_rank_witness :
    (⟨"KC", "QB", 5, 2⟩ : RankedRow) ∈
      assignOverallRank [⟨"KC", "QB", 5⟩, ⟨"BUF", "QB", 7⟩, ⟨"KC", "RB", 3⟩] ∧
    (⟨"KC", "QB", 5, 2⟩ : RankedRow).overall_rank =
      1 + ([⟨"KC", "QB", 5⟩, ⟨"BUF", "QB", 7⟩,
            ⟨"KC", "RB", 3⟩].map (fun s => UnitValueRow.value s)).countP
        (fun u => decide ((⟨"KC", "QB", 5, 2⟩ : RankedRow).value < u)) :=
  filter_preserves_overall_rank
    [⟨"KC", "QB", 5⟩, ⟨"BUF", "QB", 7⟩, ⟨"KC", "RB", 3⟩]
    ["KC"] [] ⟨"KC", "QB", 5, 2⟩ (by decide)

namespace BBB

/-- A joined unit row after expected points, restricted to the fields the
baseline stages read. -/
structure PosPointsRow where
  position : String
  expected_points : ℚ
deriving DecidableEq

/-- The expected-points values of one position group,
`groupby("position")[value_col]` (metrics.py lines 67 and 101). -/
def groupVals (rows : List PosPointsRow) (p : String) : List ℚ :=
  (rows.filter (fun r => r.position == p)).map (fun r => r.expected_points)

/-- `transform("mean")` of a position group: its sum over its size. -/
def groupAvg (rows : List PosPointsRow) (p : String) : ℚ :=
  (groupVals rows p).sum / ((groupVals rows p).length : ℚ)

/-- `transform("min")` of a position group.  A member's own group is never
empty, so the 0 default of the empty case is unreachable downstream. -/
def groupMin (rows : List PosPointsRow) (p : String) : ℚ :=
  match groupVals rows p with
  | [] => 0
  | v :: vs => vs.foldl min v

/-- One row after the four baseline stages of metrics.py lines 53-120:
the group mean and minimum broadcast to the row
(`add_position_averages`, `add_position_mins`) and the two deviations
(`add_value_vs_position_avg`, `add_value_vs_position_min`). -/
structure BaselineRow where
  position : String
  expected_points : ℚ
  position_avg : ℚ
  position_min : ℚ
  value_vs_avg : ℚ
  value_vs_min : ℚ
deriving DecidableEq

/-- The composition of the four baseline stages on the whole row set. -/
def baselineStage (rows : List PosPointsRow) : List BaselineRow :=
  rows.map (fun r =>
    ⟨r.position, r.expected_points,
      groupAvg rows r.position,
      groupMin rows r.position,
      r.expected_points - groupAvg rows r.position,
      r.expected_points - groupMin rows r.position⟩)

theorem foldl_min_le_init (l : List ℚ) (a : ℚ) : l.foldl min a ≤ a := by
  induction l generalizing a with
  | nil => exact le_refl a
  | cons b t ih => exact le_trans (ih (min a b)) (min_le_left a b)

theorem foldl_min_le_mem (l : List ℚ) :
    ∀ (a b : ℚ), b ∈ l → l.foldl min a ≤ b := by
  induction l with
  | nil => intro a b hb; cases hb
  | cons c t ih =>
    intro a b hb
    rcases List.mem_cons.1 hb with h | h
    · subst h
      exact le_trans (foldl_min_le_init t (min a b)) (min_le_right a b)
    · exact ih (min a c) b h

theorem foldl_min_mem (l : List ℚ) (a : ℚ) :
    l.foldl min a = a ∨ l.foldl min a ∈ l := by
  induction l generalizing a with
  | nil => left; rfl
  | cons c t ih =>
    rcases ih (min a c) with h | h
    · rcases min_choice a c with hm | hm
      · left; rw [List.foldl_cons, h, hm]
      · right; rw [List.foldl_cons, h, hm]; exact List.mem_cons_self c t
    · right; exact List.mem_cons_of_mem c h

/-- A member's value is in its own group's value list. -/
theorem mem_groupVals (rows : List PosPointsRow) (r : PosPointsRow)
    (hr : r ∈ rows) : r.expected_points ∈ groupVals rows r.position := by
  exact List.mem_map.2
    ⟨r, List.mem_filter.2 ⟨hr, by simp⟩, rfl⟩

/-- The broadcast group minimum is a lower bound for every member. -/
theorem groupMin_le (rows : List PosPointsRow) (r : PosPointsRow)
    (hr : r ∈ rows) : groupMin rows r.position ≤ r.expected_points := by
  have hmem := mem_groupVals rows r hr
  unfold groupMin
  rcases h : groupVals rows r.position with _ | ⟨v, vs⟩
  · rw [h] at hmem; cases hmem
  · rw [h] at hmem
    rcases List.mem_cons.1 hmem with he | he
    · rw [he]; exact foldl_min_le_init vs v
    · exact foldl_min_le_mem vs v r.expected_points he

/-- A nonempty group attains its minimum. -/
theorem groupMin_attained (rows : List PosPointsRow) (p : String)
    (hne : groupVals rows p ≠ []) :
    groupMin rows p ∈ groupVals rows p := by
  rcases h : groupVals rows p with _ | ⟨v, vs⟩
  · exact absurd h hne
  · have hm : groupMin rows p = vs.foldl min v := by
      unfold groupMin
      rw [h]
    rw [hm]
    rcases foldl_min_mem vs v with he | he
    · rw [he]; exact List.mem_cons_self v vs
    · exact List.mem_cons_of_mem v he

end BBB

/-- C8: after the minimum-baseline stage, every row satisfies
`value_vs_position_min_expected_points = expected_points −
position_min_expected_points` and that deviation is non-negative; each
non-empty position group has a row whose deviation is 0; and a
single-member group broadcasts avg = min = the member's value with both
deviations 0. -/
theorem baseline_min_stage_properties (rows : List PosPointsRow) :
    (∀ r ∈ baselineStage rows,
      r.value_vs_min = r.expected_points - r.position_min ∧
      0 ≤ r.value_vs_min) ∧
    (∀ p : String, (∃ u ∈ rows, u.position = p) →
      ∃ r ∈ baselineStage rows, r.position = p ∧ r.value_vs_min = 0) ∧
    (∀ (p : String) (u : PosPointsRow),
      rows.filter (fun t => t.position == p) = [u] →
      ∀ r ∈ baselineStage rows, r.position = p →
        r.position_avg = u.expected_points ∧
        r.position_min = u.expected_points ∧
        r.value_vs_avg = 0 ∧ r.value_vs_min = 0) := by
  refine ⟨?_, ?_, ?_⟩
  · intro r hr
    obtain ⟨s, hs, heq⟩ := List.mem_map.1 hr
    subst heq
    exact ⟨rfl, sub_nonneg.2 (groupMin_le rows s hs)⟩
  · intro p hp
    obtain ⟨u, hu, hup⟩ := hp
    have hne : groupVals rows p ≠ [] := by
      intro h
      have := mem_groupVals rows u hu
      rw [hup, h] at this
      cases this
    obtain ⟨s, hsf, hsv⟩ := List.mem_map.1 (groupMin_attained rows p hne)
    have hs : s ∈ rows := List.mem_of_mem_filter hsf
    have hsp : s.position = p := by
      have := (List.mem_filter.1 hsf).2
      exact eq_of_beq this
    refine ⟨⟨s.position, s.expected_points, groupAvg rows s.position,
      groupMin rows s.position,
      s.expected_points - groupAvg rows s.position,
      s.expected_points - groupMin rows s.position⟩,
      List.mem_map.2 ⟨s, hs, rfl⟩, hsp, ?_⟩
    show s.expected_points - groupMin rows s.position = 0
    rw [hsp, hsv]
    exact sub_self _
  · intro p u hfil r hr hrp
    obtain ⟨s, hs, heq⟩ := List.mem_map.1 hr
    have hsp : s.position = p := by rw [← heq] at hrp; exact hrp
    have hsmem : s ∈ rows.filter (fun t => t.position == p) :=
      List.mem_filter.2 ⟨hs, by simp [hsp]⟩
    rw [hfil] at hsmem
    have hsu : s = u := by
      rcases List.mem_cons.1 hsmem with h | h
      · exact h
      · cases h
    subst hsu
    have hg : groupVals rows p = [s.expected_points] := by
      unfold groupVals
      rw [hfil]
      rfl
    have havg : groupAvg rows p = s.expected_points := by
      unfold groupAvg
      rw [hg]
      simp
    have hmin : groupMin rows p = s.expected_points := by
      unfold groupMin
      rw [hg]
      rfl
    subst heq
    refine ⟨?_, ?_, ?_, ?_⟩
    · show groupAvg rows s.position = s.expected_points
      rw [hsp, havg]
    · show groupMin rows s.position = s.expected_points
      rw [hsp, hmin]
    · show s.expected_points - groupAvg rows s.position = 0
      rw [hsp, havg, sub_self]
    · show s.expected_points - groupMin rows s.position = 0
      rw [hsp, hmin, sub_self]

unseal Rat.add Rat.mul Rat.inv Rat.sub in
/-- C8 witness: on the table QB 10, QB 8, K 5 the first QB row has
deviation 10 − 8 = 2 ≥ 0, the QB group attains deviation 0, and the
single-member K group has avg = min = 5 and both deviations 0. -/
theorem baseline_min_stage_properties_witness :
    ((⟨"QB", 10, 9, 8, 1, 2⟩ : BaselineRow).value_vs_min =
        (⟨"QB", 10, 9, 8, 1, 2⟩ : BaselineRow).expected_points -
          (⟨"QB", 10, 9, 8, 1, 2⟩ : BaselineRow).position_min ∧
      (0 : ℚ) ≤ (⟨"QB", 10, 9, 8, 1, 2⟩ : BaselineRow).value_vs_min) ∧
    (∃ r ∈ baselineStage [⟨"QB", 10⟩, ⟨"QB", 8⟩, ⟨"K", 5⟩],
      r.position = "QB" ∧ r.value_vs_min = 0) ∧
    ((⟨"K", 5, 5, 5, 0, 0⟩ : BaselineRow).position_avg =
        (⟨"K", 5⟩ : PosPointsRow).expected_points ∧
      (⟨"K", 5, 5, 5, 0, 0⟩ : BaselineRow).position_min =
        (⟨"K", 5⟩ : PosPointsRow).expected_points ∧
      (⟨"K", 5, 5, 5, 0, 0⟩ : BaselineRow).value_vs_avg = 0 ∧
      (⟨"K", 5, 5, 5, 0, 0⟩ : BaselineRow).value_vs_min = 0) :=
  ⟨(baseline_min_stage_properties [⟨"QB", 10⟩, ⟨"QB", 8⟩, ⟨"K", 5⟩]).1
      ⟨"QB", 10, 9, 8, 1, 2⟩ (by decide),
   (baseline_min_stage_properties [⟨"QB", 10⟩, ⟨"QB", 8⟩, ⟨"K", 5⟩]).2.1
      "QB" ⟨⟨"QB", 10⟩, by decide, rfl⟩,
   (baseline_min_stage_properties [⟨"QB", 10⟩, ⟨"QB", 8⟩, ⟨"K", 5⟩]).2.2
      "K" ⟨"K", 5⟩ (by decide) ⟨"K", 5, 5, 5, 0, 0⟩ (by decide) rfl⟩

namespace BBB

/-- A joined row: one points row paired with its team's odds row. -/
structure JoinedRow where
  pts : PtsRow
  odds : OddsRow
deriving DecidableEq

/-- `join_pts_with_odds` (data_loader.py lines 61-73):
`pts_c.merge(odds_c, on="team", how="inner", validate="many_to_one")`.
pandas validates that the right (odds) keys are unique per team and raises
a MergeError — the spec's CardinalityError — otherwise; the inner join
then keeps each points row having a matching odds team, paired with that
unique odds row. -/
def join_pts_with_odds (pts : List PtsRow) (odds : List OddsRow) :
    Except String (List JoinedRow) :=
  if (odds.map (fun o => o.team)).Nodup then
    Except.ok (pts.filterMap (fun p =>
      (odds.find? (fun o => o.team == p.team)).map (fun o => ⟨p, o⟩)))
  else Except.error "CardinalityError"

theorem length_filterMap_eq_countP {α β : Type} (f : α → Option β)
    (l : List α) :
    (l.filterMap f).length = l.countP (fun a => (f a).isSome) := by
  induction l with
  | nil => rfl
  | cons a t ih =>
    cases h : f a <;>
      simp [List.filterMap_cons, h, List.countP_cons, ih]

theorem countP_ext {α : Type} (l : List α) (p q : α → Bool)
    (h : ∀ a, p a = q a) : l.countP p = l.countP q := by
  induction l with
  | nil => rfl
  | cons a t ih => simp [List.countP_cons, h a, ih]

/-- The join finds an odds row for a points row exactly when the points
team occurs among the odds teams. -/
theorem find_isSome_eq_mem (odds : List OddsRow) (t : String) :
    (odds.find? (fun o => o.team == t)).isSome =
      decide (t ∈ odds.map (fun o => o.team)) := by
  induction odds with
  | nil => rfl
  | cons o os ih =>
    cases h : (o.team == t)
    · have hne : t ≠ o.team := fun he => by
        rw [he, beq_self_eq_true] at h
        cases h
      rw [List.find?_cons, h, ih, List.map_cons]
      by_cases hmem : t ∈ os.map (fun o => o.team) <;>
        simp [List.mem_cons, hne, hmem]
    · have heq : o.team = t := eq_of_beq h
      rw [List.find?_cons, h, List.map_cons]
      simp [heq, List.mem_cons]

theorem countP_mem_cons_split (pts : List PtsRow) (t : String)
    (ts : List String) (ht : t ∉ ts) :
    pts.countP (fun p => decide (p.team ∈ t :: ts)) =
      pts.countP (fun p => p.team == t) +
        pts.countP (fun p => decide (p.team ∈ ts)) := by
  induction pts with
  | nil => rfl
  | cons p ps ih =>
    simp only [List.countP_cons, ih]
    by_cases h1 : p.team = t
    · simp [List.mem_cons, h1, ht]
      omega
    · by_cases h2 : p.team ∈ ts <;>
        simp [List.mem_cons, h1, h2] <;> omega

theorem countP_mem_eq_sum (pts : List PtsRow) :
    ∀ (teams : List String), teams.Nodup →
      pts.countP (fun p => decide (p.team ∈ teams)) =
        (teams.map (fun t => pts.countP (fun p => p.team == t))).sum := by
  intro teams
  induction teams with
  | nil => intro _; simp
  | cons t ts ih =>
    intro hnd
    rw [List.nodup_cons] at hnd
    rw [countP_mem_cons_split pts t ts hnd.1, List.map_cons, List.sum_cons,
      ih hnd.2]

/-- A list of constants sums to length times the constant. -/
theorem sum_map_const_nat {α : Type} (l : List α) (k : ℕ)
    (f : α → ℕ) (h : ∀ a ∈ l, f a = k) :
    (l.map f).sum = l.length * k := by
  induction l with
  | nil => simp
  | cons a t ih =>
    rw [List.map_cons, List.sum_cons, List.length_cons,
      h a (List.mem_cons_self a t),
      ih (fun b hb => h b (List.mem_cons_of_mem a hb))]
    ring

end BBB

/-- C9: the join is an inner join on team that fails with a
CardinalityError whenever the odds side has a repeated team; when the odds
teams are unique and every odds team has exactly `k` points rows, the join
succeeds with exactly `(#odds teams) * k` rows, each pairing a points row
with the odds row of the same team, a team present in the odds slice. -/
theorem join_cardinality_and_count (pts : List BBB.PtsRow)
    (odds : List BBB.OddsRow) (k : ℕ) :
    (¬ (odds.map (fun o => o.team)).Nodup →
      join_pts_with_odds pts odds = Except.error "CardinalityError") ∧
    ((odds.map (fun o => o.team)).Nodup →
      (∀ t ∈ odds.map (fun o => o.team),
        (pts.filter (fun p => p.team == t)).length = k) →
      ∃ l, join_pts_with_odds pts odds = Except.ok l ∧
        l.length = (odds.map (fun o => o.team)).length * k ∧
        ∀ j ∈ l, j.pts.team = j.odds.team ∧
          j.odds.team ∈ odds.map (fun o => o.team)) := by
  constructor
  · intro h
    unfold join_pts_with_odds
    rw [if_neg h]
  · intro hnd hcov
    refine ⟨pts.filterMap (fun p =>
      (odds.find? (fun o => o.team == p.team)).map (fun o => ⟨p, o⟩)), ?_, ?_, ?_⟩
    · unfold join_pts_with_odds
      rw [if_pos hnd]
    · rw [length_filterMap_eq_countP]
      have hpt : ∀ p : BBB.PtsRow,
          (((odds.find? (fun o => o.team == p.team)).map
            (fun o => (⟨p, o⟩ : JoinedRow))).isSome) =
            decide (p.team ∈ odds.map (fun o => o.team)) := by
        intro p
        rw [Option.isSome_map']
        exact find_isSome_eq_mem odds p.team
      rw [countP_ext _ _ _ hpt, countP_mem_eq_sum pts _ hnd]
      exact sum_map_const_nat _ k _
        (fun t ht => by
          rw [List.countP_eq_length_filter]
          exact hcov t ht)
    · intro j hj
      obtain ⟨p, hp, hfp⟩ := List.mem_filterMap.1 hj
      obtain ⟨o, hfind, hmk⟩ := Option.map_eq_some'.1 hfp
      have hpred := @List.find?_some _ (fun o => o.team == p.team) o odds hfind
      have hteam : o.team = p.team := eq_of_beq hpred
      have ho : o ∈ odds := List.mem_of_find?_eq_some hfind
      subst hmk
      exact ⟨hteam.symm, List.mem_map.2 ⟨o, ho, rfl⟩⟩

/-- C9 witness: a units table of 2 teams with 6 positions each joined to a
one-team odds slice gives exactly 6 rows, all for that team. -/
theorem join_cardinality_and_count_witness :
    ∃ l, join_pts_with_odds
        [⟨"KC", "QB", 20⟩, ⟨"KC", "RB", 15⟩, ⟨"KC", "WR", 18⟩,
         ⟨"KC", "TE", 9⟩, ⟨"KC", "K", 7⟩, ⟨"KC", "OTH", 4⟩,
         ⟨"BUF", "QB", 21⟩, ⟨"BUF", "RB", 13⟩, ⟨"BUF", "WR", 17⟩,
         ⟨"BUF", "TE", 8⟩, ⟨"BUF", "K", 6⟩, ⟨"BUF", "OTH", 5⟩]
        [⟨"KC", some "book", some "1", some 1, some 1, some 1⟩] =
        Except.ok l ∧
      l.length =
        ([⟨"KC", some "book", some "1", some 1, some 1,
            some 1⟩].map (fun o => OddsRow.team o)).length * 6 ∧
      ∀ j ∈ l, (JoinedRow.pts j).team = (JoinedRow.odds j).team ∧
        (JoinedRow.odds j).team ∈
          [⟨"KC", some "book", some "1", some 1, some 1,
            some 1⟩].map (fun o => OddsRow.team o) :=
  (join_cardinality_and_count
      [⟨"KC", "QB", 20⟩, ⟨"KC", "RB", 15⟩, ⟨"KC", "WR", 18⟩,
       ⟨"KC", "TE", 9⟩, ⟨"KC", "K", 7⟩, ⟨"KC", "OTH", 4⟩,
       ⟨"BUF", "QB", 21⟩, ⟨"BUF", "RB", 13⟩, ⟨"BUF", "WR", 17⟩,
       ⟨"BUF", "TE", 8⟩, ⟨"BUF", "K", 6⟩, ⟨"BUF", "OTH", 5⟩]
      [⟨"KC", some "book", some "1", some 1, some 1, some 1⟩] 6).2
    (by decide) (by decide)

namespace BBB

/-- model.py line 34:
`sorted(odds_c["Odds Source"].dropna().unique().tolist())` — the distinct
non-missing source names, sorted lexicographically. -/
def odds_sources_of (odds : List OddsRow) : List String :=
  List.insertionSort srcLe ((odds.filterMap (fun o => o.odds_source)).dedup)

/-- model.py lines 35-36: when the requested source is unknown and any
source exists, fall back to the first entry of the sorted source list. -/
def select_source (odds : List OddsRow) (sel : String) : String :=
  if sel ∉ odds_sources_of odds ∧ odds_sources_of odds ≠ [] then
    (odds_sources_of odds).headD sel
  else sel

/-- model.py lines 34-38 and 130: the known source list, the effective
selection `build_model` returns with its result, and the odds slice every
downstream computation of the build uses. -/
def build_model_selection (odds : List OddsRow) (sel : String) :
    List String × String × List OddsRow :=
  let sel' := select_source odds sel
  (odds_sources_of odds, sel',
    odds.filter (fun o => o.odds_source == some sel'))

/-- A name is a known source exactly when some odds row carries it. -/
theorem odds_sources_mem (odds : List OddsRow) (s : String) :
    s ∈ odds_sources_of odds ↔
      some s ∈ odds.map (fun o => o.odds_source) := by
  unfold odds_sources_of
  rw [(List.perm_insertionSort srcLe _).mem_iff, List.mem_dedup,
    List.mem_filterMap]
  constructor
  · rintro ⟨o, ho, hs⟩
    exact List.mem_map.2 ⟨o, ho, hs⟩
  · intro h
    obtain ⟨o, ho, hs⟩ := List.mem_map.1 h
    exact ⟨o, ho, hs⟩

/-- The head of a sorted source list is below every entry. -/
theorem head_le_of_sorted (a : String) (t : List String)
    (hs : List.Sorted srcLe (a :: t)) : ∀ x ∈ a :: t, srcLe a x := by
  intro x hx
  rcases List.mem_cons.1 hx with h | h
  · rw [h]; exact lexLe_refl a.data
  · exact (List.sorted_cons.1 hs).1 x h

end BBB

/-- C10: when the `selected_source` argument of `build_model` is not among
the sources present in the odds table and at least one source exists, the
build does not fail: it substitutes the lexicographically smallest
available source, slices the odds table by that substituted source for
every downstream computation, and returns the substituted name with its
result. -/
theorem fallback_source_selection (odds : List BBB.OddsRow) (sel : String)
    (h1 : sel ∉ odds_sources_of odds) (h2 : odds_sources_of odds ≠ []) :
    (build_model_selection odds sel).2.1 ∈ odds_sources_of odds ∧
    (∀ s ∈ odds_sources_of odds,
      strLeB (build_model_selection odds sel).2.1 s = true) ∧
    some (build_model_selection odds sel).2.1 ∈
      odds.map (fun o => o.odds_source) ∧
    (build_model_selection odds sel).2.2 =
      odds.filter (fun o =>
        o.odds_source == some (build_model_selection odds sel).2.1) := by
  have hsel : (build_model_selection odds sel).2.1 =
      (odds_sources_of odds).headD sel := by
    show select_source odds sel = _
    unfold select_source
    rw [if_pos ⟨h1, h2⟩]
  have hsorted : List.Sorted srcLe (odds_sources_of odds) :=
    List.sorted_insertionSort srcLe _
  rcases hl : odds_sources_of odds with _ | ⟨a, t⟩
  · exact absurd hl h2
  · rw [hl] at hsorted hsel
    simp only [List.headD_cons] at hsel
    have hmem : (build_model_selection odds sel).2.1 ∈ a :: t := by
      rw [hsel]; exact List.mem_cons_self a t
    refine ⟨hmem, ?_, ?_, rfl⟩
    · intro s hshm
      rw [hsel]
      exact head_le_of_sorted a t hsorted s hshm
    · have := (odds_sources_mem odds (build_model_selection odds sel).2.1).1
      rw [hl] at this
      exact this hmem

unseal Rat.add Rat.mul Rat.inv Rat.sub in
/-- C10 witness: with sources betmgm and caesars present and the unknown
request "zzz", the build selects betmgm (the lexicographic minimum),
slices the odds by betmgm, and returns it. -/
theorem fallback_source_selection_witness :
    (build_model_selection
        [⟨"KC", some "caesars", some "1", some 1, some 1, some 1⟩,
         ⟨"KC", some "betmgm", some "1", some 1, some 1, some 1⟩]
        "zzz").2.1 ∈
      odds_sources_of
        [⟨"KC", some "caesars", some "1", some 1, some 1, some 1⟩,
         ⟨"KC", some "betmgm", some "1", some 1, some 1, some 1⟩] ∧
    (∀ s ∈ odds_sources_of
        [⟨"KC", some "caesars", some "1", some 1, some 1, some 1⟩,
         ⟨"KC", some "betmgm", some "1", some 1, some 1, some 1⟩],
      strLeB (build_model_selection
        [⟨"KC", some "caesars", some "1", some 1, some 1, some 1⟩,
         ⟨"KC", some "betmgm", some "1", some 1, some 1, some 1⟩]
        "zzz").2.1 s = true) ∧
    some (build_model_selection
        [⟨"KC", some "caesars", some "1", some 1, some 1, some 1⟩,
         ⟨"KC", some "betmgm", some "1", some 1, some 1, some 1⟩]
        "zzz").2.1 ∈
      ([⟨"KC", some "caesars", some "1", some 1, some 1, some 1⟩,
        ⟨"KC", some "betmgm", some "1", some 1, some 1,
          some 1⟩] : List BBB.OddsRow).map (fun o => o.odds_source) ∧
    (build_model_selection
        [⟨"KC", some "caesars", some "1", some 1, some 1, some 1⟩,
         ⟨"KC", some "betmgm", some "1", some 1, some 1, some 1⟩]
        "zzz").2.2 =
      ([⟨"KC", some "caesars", some "1", some 1, some 1, some 1⟩,
        ⟨"KC", some "betmgm", some "1", some 1, some 1,
          some 1⟩] : List BBB.OddsRow).filter (fun o =>
        o.odds_source == some (build_model_selection
          [⟨"KC", some "caesars", some "1", some 1, some 1, some 1⟩,
           ⟨"KC", some "betmgm", some "1", some 1, some 1, some 1⟩]
          "zzz").2.1) :=
  fallback_source_selection
    [⟨"KC", some "caesars", some "1", some 1, some 1, some 1⟩,
     ⟨"KC", some "betmgm", some "1", some 1, some 1, some 1⟩]
    "zzz" (by decide) (by decide)
